import Mathlib

/-!
Verification development for the skills-aggregator repository.

The repository's user-facing parts present in the source tree are a Vue
frontend (dashboard, conflict-resolution screens, an axios API client
module), a shell delivery script `sync-skills.sh`, and test scaffolding.
The backend aggregation pipeline itself (merge engine, conflict store,
sync state machine) is declared and exercised by those parts but its code
is not in the tree, so it is modelled here from the specification.
-/

namespace SkillsAgg

/-- Status of a Skill: eligible for distribution or held back. -/
inductive SkillStatus where
  | Ready
  | Blocked
deriving DecidableEq, Repr

/-- Kind of a detected conflict. -/
inductive ConflictType where
  | NameConflict
  | SimilarConflict
deriving DecidableEq, Repr

/-- Lifecycle status of a Conflict record. -/
inductive ConflictStatus where
  | Pending
  | Resolved
deriving DecidableEq, Repr

/-- A skill identity: stable for a given (source_id, path) pair. -/
abbrev SkillId := Nat × String

/-- Modelled from the spec: an ephemeral fetched candidate
`(source_id, name, path, raw_content)`, produced per fetch, not persisted. -/
structure Candidate where
  sourceId : Nat
  name : String
  path : String
  rawContent : String
deriving DecidableEq, Repr

/-- Modelled from the spec: a persisted Skill record. -/
structure Skill where
  sid : SkillId
  sourceId : Nat
  name : String
  path : String
  contentHash : String
  status : SkillStatus
deriving DecidableEq, Repr

/-- Modelled from the spec: a Conflict record; its identity is the unordered
set of colliding skill identities plus its type. -/
structure Conflict where
  cid : Nat
  ctype : ConflictType
  skillIds : Finset SkillId
  status : ConflictStatus
deriving DecidableEq

/-- Modelled from the spec: the persisted store of Skills and Conflicts,
with a counter for fresh conflict ids. -/
structure Store where
  skills : List Skill
  conflicts : List Conflict
  nextCid : Nat
deriving DecidableEq

/-- Identity key of a candidate: the case-normalized name (spec 4.2),
as its character sequence. -/
def identityKey (c : Candidate) : List Char := c.name.data.map Char.toLower

/-- Content hash: a stable strong hash of the raw content only (spec 4.2);
modelled as the raw content itself, which is trivially stable and collides
exactly on identical content. -/
def contentHash (c : Candidate) : String := c.rawContent

/-- Stable skill id for a candidate: the (source_id, path) pair (spec 3). -/
def skillIdOf (c : Candidate) : SkillId := (c.sourceId, c.path)

/-- Distinct identity keys occurring among the candidates (spec 4.3 step 1). -/
def keysOf (cands : List Candidate) : List (List Char) :=
  (cands.map identityKey).dedup

/-- All candidates with the given identity key. -/
def groupOf (cands : List Candidate) (k : List Char) : List Candidate :=
  cands.filter (fun c => identityKey c = k)

/-- A group is a name conflict when it has two members whose content hashes
differ (spec 4.3 step 4); singletons and identical-content groups are free. -/
def groupIsConflict (g : List Candidate) : Bool :=
  match g with
  | [] => false
  | c :: rest => rest.any (fun d => contentHash d ≠ contentHash c)

/-- Identity keys whose group is a NameConflict. -/
def nameConflictKeys (cands : List Candidate) : List (List Char) :=
  (keysOf cands).filter (fun k => groupIsConflict (groupOf cands k))

/-- Identity keys whose group merges conflict-free (spec 4.3 steps 2-3). -/
def freeKeys (cands : List Candidate) : List (List Char) :=
  (keysOf cands).filter (fun k => ¬ groupIsConflict (groupOf cands k))

/-- Pick the better-attributed of two candidates: higher source priority
wins, ties broken by earlier-created (smaller-id) source (spec 4.3 step 3). -/
def better (prio : Nat → Nat) (a b : Candidate) : Candidate :=
  if prio b.sourceId > prio a.sourceId then b
  else if prio b.sourceId = prio a.sourceId ∧ b.sourceId < a.sourceId then b
  else a

/-- Winner of a nonempty group: fold of `better` over the members. -/
def winner (prio : Nat → Nat) (c : Candidate) (rest : List Candidate) : Candidate :=
  rest.foldl (better prio) c

/-- The single representative of a conflict-free group (empty if the key
has no members, which cannot happen for keys drawn from `keysOf`). -/
def repOf (prio : Nat → Nat) (cands : List Candidate) (k : List Char) : List Candidate :=
  match groupOf cands k with
  | [] => []
  | c :: rest => [winner prio c rest]

/-- Representatives of all conflict-free groups: the candidates that merge
without a name conflict, one per identity key. -/
def reps (prio : Nat → Nat) (cands : List Candidate) : List Candidate :=
  (freeKeys cands).flatMap (repOf prio cands)

/-- All members of name-conflicting groups. -/
def nameMembers (cands : List Candidate) : List Candidate :=
  (nameConflictKeys cands).flatMap (groupOf cands)

/-- The unordered set of skill identities of a candidate group. -/
def idsOfGroup (g : List Candidate) : Finset SkillId :=
  (g.map skillIdOf).toFinset

/-- A detected conflict is its identity: type plus unordered skill-id set. -/
abbrev DetC := ConflictType × Finset SkillId

/-- Name conflicts detected this run (spec 4.3 step 4). -/
def nameDets (cands : List Candidate) : List DetC :=
  (nameConflictKeys cands).map
    (fun k => (ConflictType.NameConflict, idsOfGroup (groupOf cands k)))

/-- Similarity bucket of a candidate: the similarity key is a deterministic,
symmetric function of the content, modelled as a bucketing map (spec 4.2). -/
def bucketOf (simKey : String → Nat) (c : Candidate) : Nat :=
  simKey c.rawContent

/-- Distinct similarity buckets among the representatives. -/
def simBuckets (simKey : String → Nat) (rs : List Candidate) : List Nat :=
  (rs.map (bucketOf simKey)).dedup

/-- Representatives falling in a given similarity bucket. -/
def simGroupOf (simKey : String → Nat) (rs : List Candidate) (b : Nat) : List Candidate :=
  rs.filter (fun c => bucketOf simKey c = b)

/-- Buckets holding at least two identity-distinct representatives. -/
def simConflictBuckets (simKey : String → Nat) (rs : List Candidate) : List Nat :=
  (simBuckets simKey rs).filter (fun b => 2 ≤ (simGroupOf simKey rs b).length)

/-- Similar conflicts detected this run (spec 4.3 step 5): the secondary
pass runs over conflict-free representatives only, so a skill already in a
NameConflict is not separately flagged. -/
def simDets (simKey : String → Nat) (prio : Nat → Nat) (cands : List Candidate) : List DetC :=
  (simConflictBuckets simKey (reps prio cands)).map
    (fun b => (ConflictType.SimilarConflict, idsOfGroup (simGroupOf simKey (reps prio cands) b)))

/-- All conflicts detected by one merge run over the given candidates. -/
def detect (simKey : String → Nat) (prio : Nat → Nat) (cands : List Candidate) : List DetC :=
  nameDets cands ++ simDets simKey prio cands

/-- Does a detected conflict identity match an existing Conflict record? -/
def matchesDet (d : DetC) (c : Conflict) : Bool :=
  decide (d.1 = c.ctype ∧ d.2 = c.skillIds)

/-- Is there a Pending record for this detected identity (spec 4.3 step 6)? -/
def hasPendingD (st : Store) (d : DetC) : Bool :=
  st.conflicts.any (fun c => decide (c.status = ConflictStatus.Pending) && matchesDet d c)

/-- Auto-clear: a Pending conflict that no longer reproduces is marked
Resolved (action auto_cleared); reproduced and Resolved records are kept
unchanged (spec 4.3 step 6). -/
def refreshConflict (dets : List DetC) (c : Conflict) : Conflict :=
  if c.status = ConflictStatus.Pending ∧ ¬ (dets.any (fun d => matchesDet d c) = true) then
    { c with status := ConflictStatus.Resolved }
  else c

/-- Detected identities with no existing Pending record: these become new
Conflict records; identities that match a Pending record are not duplicated. -/
def newDets (st : Store) (dets : List DetC) : List DetC :=
  dets.filter (fun d => ! hasPendingD st d)

/-- Mint Pending Conflict records for fresh identities, with sequential ids. -/
def mkConflicts : Nat → List DetC → List Conflict
  | _, [] => []
  | n, d :: ds => ⟨n, d.1, d.2, ConflictStatus.Pending⟩ :: mkConflicts (n + 1) ds

/-- Conflict-store update of one merge run: refresh existing records and
append records for newly detected identities (spec 4.3 step 6, 4.4 record). -/
def applyConflicts (st : Store) (dets : List DetC) : List Conflict :=
  st.conflicts.map (refreshConflict dets) ++ mkConflicts st.nextCid (newDets st dets)

/-- The skill a candidate yields, Blocked exactly when some conflict
detected this run references its identity (spec 4.3 steps 4-5). -/
def mkSkill (dets : List DetC) (c : Candidate) : Skill :=
  { sid := skillIdOf c
    sourceId := c.sourceId
    name := c.name
    path := c.path
    contentHash := contentHash c
    status :=
      if dets.any (fun d => decide (skillIdOf c ∈ d.2)) then SkillStatus.Blocked
      else SkillStatus.Ready }

/-- Candidates that survive the merge as Skills: one representative per
conflict-free group plus every member of a name-conflicting group. -/
def producedCandidates (prio : Nat → Nat) (cands : List Candidate) : List Candidate :=
  reps prio cands ++ nameMembers cands

/-- Skills resulting from one merge run. -/
def buildSkills (prio : Nat → Nat) (cands : List Candidate) (dets : List DetC) : List Skill :=
  (producedCandidates prio cands).map (mkSkill dets)

/-- Modelled from the spec: one run of the Merge Engine (spec 4.3): group
by identity key, classify overlaps, run the similarity pass, dedup against
Pending conflicts, auto-clear stale ones, and partition Skills. -/
def runMerge (simKey : String → Nat) (prio : Nat → Nat) (st : Store)
    (cands : List Candidate) : Store :=
  let dets := detect simKey prio cands
  { skills := buildSkills prio cands dets
    conflicts := applyConflicts st dets
    nextCid := st.nextCid + (newDets st dets).length }

/-- States of the sync state machine (spec 4.5). -/
inductive SyncState where
  | IDLE
  | PULLING
  | ANALYZING
  | MERGING
  | READY
  | PARTIAL_READY
deriving DecidableEq, Repr

/-- A run is in flight exactly in the PULLING, ANALYZING, MERGING phases. -/
def isActive : SyncState → Bool
  | SyncState.PULLING => true
  | SyncState.ANALYZING => true
  | SyncState.MERGING => true
  | _ => false

/-- Per-run recorded failures (spec 7). -/
inductive RunError where
  | SourceUnavailable (sourceId : Nat)
deriving DecidableEq, Repr

/-- Modelled from the spec: the process-wide sync machine snapshot
`(state, ready_count, blocked_count)` plus the persisted store and the
failures recorded by the latest run. -/
structure Machine where
  phase : SyncState
  store : Store
  readyCount : Nat
  blockedCount : Nat
  errors : List RunError
deriving DecidableEq

/-- The status() boundary: `(state, ready_count, blocked_count)` (spec 6). -/
def status (m : Machine) : SyncState × Nat × Nat :=
  (m.phase, m.readyCount, m.blockedCount)

/-- Outcome of a triggerRun request. -/
inductive TriggerResult where
  | accepted
  | rejected
deriving DecidableEq, Repr

/-- Modelled from the spec: triggerRun: refused as a no-op returning the
current status when a run is already active, otherwise enters PULLING. -/
def triggerRun (m : Machine) : Machine × TriggerResult × (SyncState × Nat × Nat) :=
  if isActive m.phase then (m, TriggerResult.rejected, status m)
  else
    let m2 := { m with phase := SyncState.PULLING }
    (m2, TriggerResult.accepted, status m2)

/-- Per-source fetch outcome (spec 4.1): a candidate list or unavailable. -/
inductive FetchResult where
  | ok (cands : List Candidate)
  | unavailable
deriving DecidableEq, Repr

/-- Whether a fetch outcome is a failure. -/
def isUnavailable : FetchResult → Bool
  | FetchResult.unavailable => true
  | _ => false

/-- Ids of the sources whose fetch failed this run. -/
def failedSources (fetches : List (Nat × FetchResult)) : List Nat :=
  (fetches.filter (fun f => isUnavailable f.2)).map Prod.fst

/-- All candidates of the sources that succeeded: a failed source simply
contributes nothing this round (spec 4.1). -/
def succeededCandidates (fetches : List (Nat × FetchResult)) : List Candidate :=
  fetches.flatMap (fun f =>
    match f.2 with
    | FetchResult.ok cs => cs
    | FetchResult.unavailable => [])

/-- Number of Ready skills in the store. -/
def countReady (st : Store) : Nat :=
  (st.skills.filter (fun s => s.status = SkillStatus.Ready)).length

/-- Number of Blocked skills in the store. -/
def countBlocked (st : Store) : Nat :=
  (st.skills.filter (fun s => s.status = SkillStatus.Blocked)).length

/-- Number of Pending conflict records in the store. -/
def pendingCount (st : Store) : Nat :=
  (st.conflicts.filter (fun c => c.status = ConflictStatus.Pending)).length

/-- End state of a completed run: READY requires zero Pending conflicts
after merge, otherwise PARTIAL_READY (spec 4.5). -/
def postMergeState (st : Store) : SyncState :=
  if pendingCount st = 0 then SyncState.READY else SyncState.PARTIAL_READY

/-- Modelled from the spec: one full pipeline run. A request while a run
is active is a no-op; otherwise the candidates of the succeeded sources
flow through the merge, a SourceUnavailable failure is recorded per failed
source, and the machine ends in READY or PARTIAL_READY. -/
def runPipeline (simKey : String → Nat) (prio : Nat → Nat) (m : Machine)
    (fetches : List (Nat × FetchResult)) : Machine :=
  if isActive m.phase then m
  else
    let st2 := runMerge simKey prio m.store (succeededCandidates fetches)
    { phase := postMergeState st2
      store := st2
      readyCount := countReady st2
      blockedCount := countBlocked st2
      errors := (failedSources fetches).map RunError.SourceUnavailable }

/-- Resolution actions (spec 4.4). -/
inductive ResolveAction where
  | choose_one
  | merge
  | keep_all
  | auto_cleared
deriving DecidableEq, Repr

/-- Outcome of a resolve request. -/
inductive ResolveOutcome where
  | ok
  | invalidResolution
deriving DecidableEq, Repr

/-- Look up a conflict record by id. -/
def findConflict (st : Store) (cid : Nat) : Option Conflict :=
  st.conflicts.find? (fun c => c.cid = cid)

/-- A supplied chosen id must be one of the conflict's skill_ids. -/
def chosenOk (c : Conflict) : Option SkillId → Bool
  | none => true
  | some s => decide (s ∈ c.skillIds)

/-- Modelled from the spec: resolve(conflict_id, action, chosen?)
(spec 4.4): fails with InvalidResolution, touching nothing, if `chosen` is
not one of skill_ids or the conflict is already Resolved; on success marks
the conflict Resolved and, for choose_one, retires the non-chosen skills. -/
def resolveOp (st : Store) (cid : Nat) (act : ResolveAction)
    (chosen : Option SkillId) : Store × ResolveOutcome :=
  match findConflict st cid with
  | none => (st, ResolveOutcome.invalidResolution)
  | some c =>
    if c.status = ConflictStatus.Resolved then (st, ResolveOutcome.invalidResolution)
    else if ¬ (chosenOk c chosen = true) then (st, ResolveOutcome.invalidResolution)
    else
      let skills2 :=
        match act, chosen with
        | ResolveAction.choose_one, some s =>
          st.skills.filter (fun sk => decide (sk.sid ∉ c.skillIds) || decide (sk.sid = s))
        | _, _ => st.skills
      let conflicts2 := st.conflicts.map (fun c2 =>
        if c2.cid = cid then { c2 with status := ConflictStatus.Resolved } else c2)
      ({ st with skills := skills2, conflicts := conflicts2 }, ResolveOutcome.ok)

/-- Shape of the backend status response the dashboard fetches. -/
structure StatusResponse where
  state : String
  ready_count : Nat
  blocked_count : Nat
  conflicts : List String
deriving DecidableEq, Repr

/-- The dashboard's stats computed property (Dashboard view, frontend):
ready_count is the literal 0, and blocked_count is the length of the
conflicts list taken from the status response; the response's own
ready_count and blocked_count fields are never read. -/
def dashboardStats (resp : StatusResponse) : Nat × Nat :=
  (0, resp.conflicts.length)

/-- Named exports of the frontend api module. -/
def apiExports : List String :=
  ["getSyncStatus", "triggerSync", "getSources", "createSource", "updateSource",
   "deleteSource", "getSkills", "getSkill", "getConflicts", "getConflict",
   "resolveConflict", "getMetadata", "downloadSkills"]

/-- An HTTP request as issued by the api client. -/
structure Request where
  method : String
  path : String
deriving DecidableEq, Repr

/-- Requests issued by invoking an api-module export relevant to sync. -/
def requestOf (name : String) : List Request :=
  if name = "triggerSync" then [⟨"POST", "/sync"⟩]
  else if name = "getSyncStatus" then [⟨"GET", "/sync/status"⟩]
  else []

/-- The api-module binding that App.vue's handleSync invokes. -/
def handleSyncBinding : String := "syncStatus"

/-- Requests issued by one click of the header sync button: the imported
binding is resolved against the module's named exports; a name absent from
the exports is an undefined binding whose call throws before any request. -/
def handleSyncRequests : List Request :=
  if handleSyncBinding ∈ apiExports then requestOf handleSyncBinding else []

/-- Body built by handleAutoResolve (AI-recommendation path, Conflicts
view): the chosen skill id is sent under the field chosen_skill_id. -/
def autoResolveBody (action chosen : String) : List (String × String) :=
  [("action", action), ("chosen_skill_id", chosen)]

/-- Body built by handleSubmitResolve (manual path, Conflicts view): the
resolve form holds the fields action and chosen. -/
def submitResolveBody (action chosen : String) : List (String × String) :=
  [("action", action), ("chosen", chosen)]

/-- Value of a field in a request body. -/
def fieldValue (body : List (String × String)) (key : String) : Option String :=
  (body.find? (fun p => p.1 = key)).map Prod.snd

/-- What one run of sync-skills.sh does with the delivery step. -/
inductive SyncAction where
  | transfer (subdir : String)
  | useLocalCache
deriving DecidableEq, Repr

/-- The sync-skills.sh decision on the state reported by status(): READY
and PARTIAL_READY reach the rsync call with SYNC_PATH set to ready; every
other state (PULLING, ANALYZING, MERGING, IDLE, unknown) exits first. -/
def syncDecision (state : String) : SyncAction :=
  if state = "READY" then SyncAction.transfer "ready"
  else if state = "PARTIAL_READY" then SyncAction.transfer "ready"
  else SyncAction.useLocalCache

/-- rsync source directory for a decision, as the script builds it. -/
def rsyncSource : SyncAction → Option String
  | SyncAction.transfer p => some ("/path/to/data/output/" ++ p ++ "/")
  | SyncAction.useLocalCache => none

/-- Effect of one script run on the local skills cache: a transfer
replaces the cache with the remote subdirectory contents (rsync --delete);
otherwise the cache is left unchanged. -/
def runSyncScript (state : String) (remote : String → List String)
    (localCache : List String) : List String :=
  match syncDecision state with
  | SyncAction.transfer p => remote p
  | SyncAction.useLocalCache => localCache

/-- Pending conflict records with the given identity. -/
def pendingWith (st : Store) (t : ConflictType) (s : Finset SkillId) : List Conflict :=
  st.conflicts.filter (fun c =>
    decide (c.status = ConflictStatus.Pending) && matchesDet (t, s) c)

/-- At most one Pending record exists per conflict identity. -/
def uniqPending (st : Store) : Prop :=
  ∀ t s, (pendingWith st t s).length ≤ 1

/-- A trivial similarity key, for concrete evaluation. -/
def exSim : String → Nat := fun _ => 0

/-- A priority map equal to the source id, for concrete evaluation. -/
def exPrio : Nat → Nat := fun s => s

/-- The empty store. -/
def exStore0 : Store := ⟨[], [], 0⟩

/-- Two sources both carrying a deploy skill with different content:
one name collision. -/
def exCands : List Candidate :=
  [⟨1, "Deploy", "deploy.md", "v1"⟩, ⟨2, "deploy", "deploy2.md", "v2"⟩]

/-- The blocked skill source 1 gets for its colliding candidate. -/
def exSkill1 : Skill :=
  ⟨(1, "deploy.md"), 1, "Deploy", "deploy.md", "v1", SkillStatus.Blocked⟩

/-- A resolved conflict, for concrete evaluation. -/
def exConflictR : Conflict :=
  ⟨0, ConflictType.NameConflict, {(1, "a.md"), (2, "a.md")}, ConflictStatus.Resolved⟩

/-- A store holding just the resolved conflict. -/
def exStoreR : Store := ⟨[], [exConflictR], 1⟩

/-- An idle machine over the empty store, for concrete evaluation. -/
def exMachineIdle : Machine := ⟨SyncState.IDLE, exStore0, 0, 0, []⟩

/-- A fetch round where sources 1 and 3 succeed with identical lint
content and source 2 is unavailable. -/
def exFetches : List (Nat × FetchResult) :=
  [(1, FetchResult.ok [⟨1, "lint", "lint.md", "same"⟩]),
    (2, FetchResult.unavailable),
    (3, FetchResult.ok [⟨3, "lint", "lint2.md", "same"⟩])]

theorem runMerge_skills (simKey : String → Nat) (prio : Nat → Nat)
    (st : Store) (cands : List Candidate) :
    (runMerge simKey prio st cands).skills =
      buildSkills prio cands (detect simKey prio cands) := rfl

theorem runMerge_conflicts (simKey : String → Nat) (prio : Nat → Nat)
    (st : Store) (cands : List Candidate) :
    (runMerge simKey prio st cands).conflicts =
      applyConflicts st (detect simKey prio cands) := rfl

theorem runMerge_nextCid (simKey : String → Nat) (prio : Nat → Nat)
    (st : Store) (cands : List Candidate) :
    (runMerge simKey prio st cands).nextCid =
      st.nextCid + (newDets st (detect simKey prio cands)).length := rfl

theorem mkConflicts_mem {c : Conflict} :
    ∀ (n : Nat) (l : List DetC), c ∈ mkConflicts n l →
      ∃ d ∈ l, c.ctype = d.1 ∧ c.skillIds = d.2 ∧ c.status = ConflictStatus.Pending := by
  intro n l
  induction l generalizing n with
  | nil => intro h; simp [mkConflicts] at h
  | cons d ds ih =>
    intro h
    rcases List.mem_cons.mp h with rfl | h
    · exact ⟨d, List.mem_cons_self d ds, rfl, rfl, rfl⟩
    · obtain ⟨e, he, h1, h2, h3⟩ := ih (n + 1) h
      exact ⟨e, List.mem_cons_of_mem d he, h1, h2, h3⟩

theorem mkConflicts_complete {d : DetC} :
    ∀ (n : Nat) (l : List DetC), d ∈ l →
      ∃ c ∈ mkConflicts n l, c.status = ConflictStatus.Pending ∧
        c.ctype = d.1 ∧ c.skillIds = d.2 := by
  intro n l
  induction l generalizing n with
  | nil => intro h; cases h
  | cons e es ih =>
    intro h
    rcases List.mem_cons.mp h with rfl | h
    · exact ⟨⟨n, d.1, d.2, ConflictStatus.Pending⟩,
        List.mem_cons_self _ _, rfl, rfl, rfl⟩
    · obtain ⟨c, hc, h1, h2, h3⟩ := ih (n + 1) h
      exact ⟨c, List.mem_cons_of_mem _ hc, h1, h2, h3⟩

theorem refreshConflict_of_match (dets : List DetC) (c : Conflict)
    (hd : ∃ d ∈ dets, matchesDet d c = true) :
    refreshConflict dets c = c := by
  unfold refreshConflict
  rw [if_neg]
  rintro ⟨_, h2⟩
  obtain ⟨d, hdm, hm⟩ := hd
  exact h2 (List.any_eq_true.mpr ⟨d, hdm, hm⟩)

theorem refreshConflict_pending (dets : List DetC) (c : Conflict)
    (h : (refreshConflict dets c).status = ConflictStatus.Pending) :
    refreshConflict dets c = c ∧ ∃ d ∈ dets, matchesDet d c = true := by
  by_cases hc : c.status = ConflictStatus.Pending ∧
      ¬ (dets.any (fun d => matchesDet d c) = true)
  · unfold refreshConflict at h
    rw [if_pos hc] at h
    simp at h
  · have heq : refreshConflict dets c = c := by
      unfold refreshConflict
      rw [if_neg hc]
    rw [heq] at h
    rcases not_and_or.mp hc with hna | hnb
    · exact absurd h hna
    · rw [not_not] at hnb
      exact ⟨heq, List.any_eq_true.mp hnb⟩

theorem applyConflicts_pending_detected (st : Store) (dets : List DetC)
    (c : Conflict) (hc : c ∈ applyConflicts st dets)
    (hp : c.status = ConflictStatus.Pending) :
    ∃ d ∈ dets, d.1 = c.ctype ∧ d.2 = c.skillIds := by
  unfold applyConflicts at hc
  rcases List.mem_append.mp hc with hc | hc
  · obtain ⟨c0, hc0, heq⟩ := List.mem_map.mp hc
    rw [← heq] at hp
    obtain ⟨hkeep, d, hd, hm⟩ := refreshConflict_pending dets c0 hp
    have hid := of_decide_eq_true hm
    rw [← heq, hkeep]
    exact ⟨d, hd, hid.1, hid.2⟩
  · obtain ⟨d, hd, h1, h2, _⟩ := mkConflicts_mem st.nextCid (newDets st dets) hc
    exact ⟨d, (List.mem_filter.mp hd).1, h1.symm, h2.symm⟩

theorem applyConflicts_detected_pending (st : Store) (dets : List DetC)
    (d : DetC) (hd : d ∈ dets) :
    ∃ c ∈ applyConflicts st dets, c.status = ConflictStatus.Pending ∧
      c.ctype = d.1 ∧ c.skillIds = d.2 := by
  by_cases hp : hasPendingD st d = true
  · unfold hasPendingD at hp
    obtain ⟨c0, hc0, hb⟩ := List.any_eq_true.mp hp
    rw [Bool.and_eq_true] at hb
    have hs : c0.status = ConflictStatus.Pending := of_decide_eq_true hb.1
    have hm : matchesDet d c0 = true := hb.2
    have hkeep : refreshConflict dets c0 = c0 :=
      refreshConflict_of_match dets c0 ⟨d, hd, hm⟩
    have hid := of_decide_eq_true hm
    refine ⟨c0, ?_, hs, hid.1.symm, hid.2.symm⟩
    unfold applyConflicts
    refine List.mem_append.mpr (Or.inl ?_)
    rw [← hkeep]
    exact List.mem_map_of_mem (refreshConflict dets) hc0
  · have hnew : d ∈ newDets st dets := by
      unfold newDets
      exact List.mem_filter.mpr ⟨hd, by simp [hp]⟩
    obtain ⟨c, hc, h1, h2, h3⟩ := mkConflicts_complete st.nextCid (newDets st dets) hnew
    refine ⟨c, ?_, h1, h2, h3⟩
    unfold applyConflicts
    exact List.mem_append.mpr (Or.inr hc)

theorem buildSkills_status (prio : Nat → Nat) (cands : List Candidate)
    (dets : List DetC) (sk : Skill) (hsk : sk ∈ buildSkills prio cands dets) :
    sk.status = SkillStatus.Blocked ↔ ∃ d ∈ dets, sk.sid ∈ d.2 := by
  unfold buildSkills at hsk
  obtain ⟨c, _, heq⟩ := List.mem_map.mp hsk
  rw [← heq]
  unfold mkSkill
  by_cases h : dets.any (fun d => decide (skillIdOf c ∈ d.2)) = true
  · simp only [h, if_true]
    obtain ⟨d, hd, hmem⟩ := List.any_eq_true.mp h
    exact ⟨fun _ => ⟨d, hd, of_decide_eq_true hmem⟩, fun _ => trivial⟩
  · simp only [h, if_false]
    constructor
    · intro hb; cases hb
    · rintro ⟨d, hd, hmem⟩
      exact absurd (List.any_eq_true.mpr ⟨d, hd, decide_eq_true hmem⟩) h

/-- C1: after any completed merge run, every Ready skill is referenced by
no Pending conflict and every Blocked skill is referenced by at least one
Pending conflict; merge is the only operation assigning skill status. -/
theorem merge_ready_blocked_invariant (simKey : String → Nat) (prio : Nat → Nat)
    (st : Store) (cands : List Candidate) :
    (∀ sk ∈ (runMerge simKey prio st cands).skills, sk.status = SkillStatus.Ready →
      ∀ c ∈ (runMerge simKey prio st cands).conflicts,
        c.status = ConflictStatus.Pending → sk.sid ∉ c.skillIds) ∧
    (∀ sk ∈ (runMerge simKey prio st cands).skills, sk.status = SkillStatus.Blocked →
      ∃ c ∈ (runMerge simKey prio st cands).conflicts,
        c.status = ConflictStatus.Pending ∧ sk.sid ∈ c.skillIds) := by
  constructor
  · intro sk hsk hready c hc hp hmem
    rw [runMerge_conflicts] at hc
    obtain ⟨d, hd, _, hd2⟩ := applyConflicts_pending_detected st _ c hc hp
    rw [runMerge_skills] at hsk
    have hblocked : sk.status = SkillStatus.Blocked :=
      (buildSkills_status prio cands _ sk hsk).mpr ⟨d, hd, by rw [hd2]; exact hmem⟩
    rw [hready] at hblocked
    cases hblocked
  · intro sk hsk hblocked
    rw [runMerge_skills] at hsk
    obtain ⟨d, hd, hmem⟩ := (buildSkills_status prio cands _ sk hsk).mp hblocked
    obtain ⟨c, hc, hcp, _, hcs⟩ := applyConflicts_detected_pending st _ d hd
    refine ⟨c, ?_, hcp, ?_⟩
    · rw [runMerge_conflicts]; exact hc
    · rw [hcs]; exact hmem

/-- Witness for C1: in the two-source name collision, the blocked skill of
source 1 is referenced by a Pending conflict of the resulting store. -/
theorem merge_ready_blocked_invariant_witness :
    exSkill1 ∈ (runMerge exSim exPrio exStore0 exCands).skills ∧
    exSkill1.status = SkillStatus.Blocked ∧
    ∃ c ∈ (runMerge exSim exPrio exStore0 exCands).conflicts,
      c.status = ConflictStatus.Pending ∧ exSkill1.sid ∈ c.skillIds :=
  ⟨by decide, by decide,
    (merge_ready_blocked_invariant exSim exPrio exStore0 exCands).2 exSkill1
      (by decide) (by decide)⟩

/-- C3: at most one Sync Run is active at any time: whenever the state
machine is in PULLING, ANALYZING or MERGING, a triggerRun request is
refused as a no-op that returns the current status and changes no state. -/
theorem triggerRun_rejected_when_active (m : Machine)
    (h : isActive m.phase = true) :
    triggerRun m = (m, TriggerResult.rejected, status m) := by
  unfold triggerRun
  simp [h]

/-- Witness for C3 at a concrete machine in the MERGING phase. -/
theorem triggerRun_rejected_when_active_witness :
    isActive (Machine.mk SyncState.MERGING (Store.mk [] [] 0) 0 0 []).phase = true ∧
    triggerRun (Machine.mk SyncState.MERGING (Store.mk [] [] 0) 0 0 []) =
      (Machine.mk SyncState.MERGING (Store.mk [] [] 0) 0 0 [], TriggerResult.rejected,
        status (Machine.mk SyncState.MERGING (Store.mk [] [] 0) 0 0 [])) :=
  ⟨rfl, triggerRun_rejected_when_active (Machine.mk SyncState.MERGING (Store.mk [] [] 0) 0 0 []) rfl⟩

/-- C5: resolve fails with InvalidResolution when the chosen id is not one
of the conflict's skill_ids or when the conflict is already Resolved, and
in either failure case it mutates no Skill or Conflict state: the store is
returned unchanged, so a Resolved conflict can never be re-resolved. -/
theorem resolve_invalid_mutates_nothing (st : Store) (cid : Nat)
    (act : ResolveAction) (chosen : Option SkillId) (c : Conflict)
    (hf : findConflict st cid = some c)
    (h : c.status = ConflictStatus.Resolved ∨
      ∃ s, chosen = some s ∧ s ∉ c.skillIds) :
    resolveOp st cid act chosen = (st, ResolveOutcome.invalidResolution) := by
  unfold resolveOp
  rw [hf]
  rcases h with h | ⟨s, rfl, hs⟩
  · simp [h]
  · by_cases hr : c.status = ConflictStatus.Resolved
    · simp [hr]
    · simp [hr, chosenOk, hs]

/-- Witness for C5: re-resolving the already-Resolved conflict of the
concrete store is refused and leaves the store unchanged. -/
theorem resolve_invalid_mutates_nothing_witness :
    findConflict exStoreR 0 = some exConflictR ∧
    exConflictR.status = ConflictStatus.Resolved ∧
    resolveOp exStoreR 0 ResolveAction.choose_one (some (1, "a.md")) =
      (exStoreR, ResolveOutcome.invalidResolution) :=
  ⟨by decide, by decide,
    resolve_invalid_mutates_nothing exStoreR 0 ResolveAction.choose_one (some (1, "a.md"))
      exConflictR (by decide) (Or.inl (by decide))⟩

/-- C7: downstream distribution serves exactly the Ready partition: in
both READY and PARTIAL_READY the delivery script transfers only the ready
export path, and in every other state it transfers nothing and leaves the
local cache unchanged. -/
theorem sync_script_serves_only_ready (state : String)
    (remote : String → List String) (localCache : List String) :
    syncDecision "READY" = SyncAction.transfer "ready" ∧
    syncDecision "PARTIAL_READY" = SyncAction.transfer "ready" ∧
    rsyncSource (syncDecision "READY") = some "/path/to/data/output/ready/" ∧
    rsyncSource (syncDecision "PARTIAL_READY") = some "/path/to/data/output/ready/" ∧
    (state ≠ "READY" → state ≠ "PARTIAL_READY" →
      syncDecision state = SyncAction.useLocalCache ∧
      rsyncSource (syncDecision state) = none ∧
      runSyncScript state remote localCache = localCache) := by
  refine ⟨by decide, by decide, by decide, by decide, fun h1 h2 => ?_⟩
  have hd : syncDecision state = SyncAction.useLocalCache := by
    unfold syncDecision
    rw [if_neg h1, if_neg h2]
  refine ⟨hd, by rw [hd]; rfl, ?_⟩
  unfold runSyncScript
  rw [hd]

/-- Witness for C7 at the concrete state IDLE. -/
theorem sync_script_serves_only_ready_witness :
    "IDLE" ≠ "READY" ∧ "IDLE" ≠ "PARTIAL_READY" ∧
    runSyncScript "IDLE" (fun _ => ["x"]) ["cached"] = ["cached"] :=
  ⟨by decide, by decide,
    ((sync_script_serves_only_ready "IDLE" (fun _ => ["x"]) ["cached"]).2.2.2.2
      (by decide) (by decide)).2.2⟩

theorem runPipeline_not_active (simKey : String → Nat) (prio : Nat → Nat)
    (m : Machine) (fetches : List (Nat × FetchResult))
    (h : isActive m.phase = false) :
    runPipeline simKey prio m fetches =
      { phase := postMergeState (runMerge simKey prio m.store (succeededCandidates fetches))
        store := runMerge simKey prio m.store (succeededCandidates fetches)
        readyCount := countReady (runMerge simKey prio m.store (succeededCandidates fetches))
        blockedCount := countBlocked (runMerge simKey prio m.store (succeededCandidates fetches))
        errors := (failedSources fetches).map RunError.SourceUnavailable } := by
  unfold runPipeline
  simp [h]

/-- C4: a run that completes the merge stage ends in READY exactly when
zero Pending conflicts remain after merge, and in PARTIAL_READY otherwise. -/
theorem completed_run_ready_iff_no_pending (simKey : String → Nat) (prio : Nat → Nat)
    (m : Machine) (fetches : List (Nat × FetchResult))
    (h : isActive m.phase = false) :
    ((runPipeline simKey prio m fetches).phase = SyncState.READY ↔
      pendingCount (runPipeline simKey prio m fetches).store = 0) ∧
    ((runPipeline simKey prio m fetches).phase = SyncState.PARTIAL_READY ↔
      pendingCount (runPipeline simKey prio m fetches).store ≠ 0) := by
  rw [runPipeline_not_active simKey prio m fetches h]
  unfold postMergeState
  by_cases hp : pendingCount (runMerge simKey prio m.store (succeededCandidates fetches)) = 0
  · simp [hp]
  · simp [hp]

/-- Witness for C4 at the idle machine and the partially failing fetch
round: the run ends READY and indeed no Pending conflict remains. -/
theorem completed_run_ready_iff_no_pending_witness :
    isActive exMachineIdle.phase = false ∧
    ((runPipeline exSim exPrio exMachineIdle exFetches).phase = SyncState.READY ↔
      pendingCount (runPipeline exSim exPrio exMachineIdle exFetches).store = 0) :=
  ⟨rfl, (completed_run_ready_iff_no_pending exSim exPrio exMachineIdle exFetches rfl).1⟩

/-- C6: when some sources fail to fetch, the run still completes in READY
or PARTIAL_READY, a SourceUnavailable failure is recorded for each failed
source, no failure prevents another source's candidates from entering the
merge, and the resulting counts come from the merge of the succeeded
sources' candidates only. -/
theorem partial_failure_run_completes (simKey : String → Nat) (prio : Nat → Nat)
    (m : Machine) (fetches : List (Nat × FetchResult))
    (h : isActive m.phase = false) :
    ((runPipeline simKey prio m fetches).phase = SyncState.READY ∨
      (runPipeline simKey prio m fetches).phase = SyncState.PARTIAL_READY) ∧
    (∀ s, (s, FetchResult.unavailable) ∈ fetches →
      RunError.SourceUnavailable s ∈ (runPipeline simKey prio m fetches).errors) ∧
    (∀ s cs, (s, FetchResult.ok cs) ∈ fetches →
      ∀ c ∈ cs, c ∈ succeededCandidates fetches) ∧
    (runPipeline simKey prio m fetches).store =
      runMerge simKey prio m.store (succeededCandidates fetches) ∧
    (runPipeline simKey prio m fetches).readyCount =
      countReady (runMerge simKey prio m.store (succeededCandidates fetches)) ∧
    (runPipeline simKey prio m fetches).blockedCount =
      countBlocked (runMerge simKey prio m.store (succeededCandidates fetches)) := by
  rw [runPipeline_not_active simKey prio m fetches h]
  refine ⟨?_, ?_, ?_, rfl, rfl, rfl⟩
  · unfold postMergeState
    by_cases hp : pendingCount (runMerge simKey prio m.store (succeededCandidates fetches)) = 0
    · exact Or.inl (by simp [hp])
    · exact Or.inr (by simp [hp])
  · intro s hs
    refine List.mem_map.mpr ⟨s, ?_, rfl⟩
    unfold failedSources
    refine List.mem_map.mpr ⟨(s, FetchResult.unavailable), ?_, rfl⟩
    exact List.mem_filter.mpr ⟨hs, rfl⟩
  · intro s cs hmem c hc
    unfold succeededCandidates
    exact List.mem_flatMap.mpr ⟨(s, FetchResult.ok cs), hmem, hc⟩

/-- Witness for C6: with source 2 unavailable, its failure is recorded,
the run completes READY, and the single ready skill comes from the
succeeded sources. -/
theorem partial_failure_run_completes_witness :
    isActive exMachineIdle.phase = false ∧
    RunError.SourceUnavailable 2 ∈ (runPipeline exSim exPrio exMachineIdle exFetches).errors ∧
    (runPipeline exSim exPrio exMachineIdle exFetches).phase = SyncState.READY ∧
    (runPipeline exSim exPrio exMachineIdle exFetches).readyCount = 1 ∧
    (runPipeline exSim exPrio exMachineIdle exFetches).blockedCount = 0 :=
  ⟨rfl,
    (partial_failure_run_completes exSim exPrio exMachineIdle exFetches rfl).2.1 2 (by decide),
    by decide, by decide, by decide⟩

theorem Store_eq_of_fields {a b : Store} (h1 : a.skills = b.skills)
    (h2 : a.conflicts = b.conflicts) (h3 : a.nextCid = b.nextCid) : a = b := by
  cases a
  cases b
  congr

theorem hasPendingD_runMerge (simKey : String → Nat) (prio : Nat → Nat)
    (st : Store) (cands : List Candidate) (d : DetC)
    (hd : d ∈ detect simKey prio cands) :
    hasPendingD (runMerge simKey prio st cands) d = true := by
  obtain ⟨c, hc, hp, h1, h2⟩ :=
    applyConflicts_detected_pending st (detect simKey prio cands) d hd
  unfold hasPendingD
  refine List.any_eq_true.mpr ⟨c, ?_, ?_⟩
  · rw [runMerge_conflicts]
    exact hc
  · rw [Bool.and_eq_true]
    exact ⟨decide_eq_true hp, decide_eq_true ⟨h1.symm, h2.symm⟩⟩

theorem newDets_runMerge (simKey : String → Nat) (prio : Nat → Nat)
    (st : Store) (cands : List Candidate) :
    newDets (runMerge simKey prio st cands) (detect simKey prio cands) = [] := by
  unfold newDets
  rw [List.filter_eq_nil_iff]
  intro d hd
  rw [hasPendingD_runMerge simKey prio st cands d hd]
  decide

theorem refresh_runMerge (simKey : String → Nat) (prio : Nat → Nat)
    (st : Store) (cands : List Candidate) (c : Conflict)
    (hc : c ∈ (runMerge simKey prio st cands).conflicts) :
    refreshConflict (detect simKey prio cands) c = c := by
  by_cases hp : c.status = ConflictStatus.Pending
  · rw [runMerge_conflicts] at hc
    obtain ⟨d, hd, h1, h2⟩ :=
      applyConflicts_pending_detected st (detect simKey prio cands) c hc hp
    exact refreshConflict_of_match (detect simKey prio cands) c
      ⟨d, hd, decide_eq_true ⟨h1, h2⟩⟩
  · unfold refreshConflict
    rw [if_neg]
    rintro ⟨h1, _⟩
    exact hp h1

theorem map_self_of_fixed {α : Type} (f : α → α) :
    ∀ (l : List α), (∀ a ∈ l, f a = a) → l.map f = l := by
  intro l
  induction l with
  | nil => intro _; rfl
  | cons a as ih =>
    intro h
    show f a :: as.map f = a :: as
    rw [h a (List.mem_cons_self a as), ih (fun b hb => h b (List.mem_cons_of_mem a hb))]

theorem merge_idempotent_store (simKey : String → Nat) (prio : Nat → Nat)
    (st : Store) (cands : List Candidate) :
    runMerge simKey prio (runMerge simKey prio st cands) cands =
      runMerge simKey prio st cands := by
  refine Store_eq_of_fields ?_ ?_ ?_
  · rw [runMerge_skills, runMerge_skills]
  · rw [runMerge_conflicts simKey prio (runMerge simKey prio st cands) cands]
    unfold applyConflicts
    rw [newDets_runMerge]
    show List.map _ _ ++ [] = _
    rw [List.append_nil]
    exact map_self_of_fixed _ _ (refresh_runMerge simKey prio st cands)
  · rw [runMerge_nextCid simKey prio (runMerge simKey prio st cands) cands, newDets_runMerge]
    rfl

theorem groupOf_sub (cands : List Candidate) (k : List Char) :
    ∀ c ∈ groupOf cands k, c ∈ cands :=
  fun _ hc => (List.mem_filter.mp hc).1

theorem groupOf_key (cands : List Candidate) (k : List Char) :
    ∀ c ∈ groupOf cands k, identityKey c = k :=
  fun _ hc => of_decide_eq_true (List.mem_filter.mp hc).2

theorem keysOf_group_ne_nil (cands : List Candidate) (k : List Char)
    (hk : k ∈ keysOf cands) : groupOf cands k ≠ [] := by
  unfold keysOf at hk
  obtain ⟨c, hc, hck⟩ := List.mem_map.mp (List.mem_dedup.mp hk)
  intro hnil
  have hmem : c ∈ groupOf cands k := List.mem_filter.mpr ⟨hc, decide_eq_true hck⟩
  rw [hnil] at hmem
  cases hmem

theorem idsOfGroup_ne {cands : List Candidate}
    (hinj : ∀ c ∈ cands, ∀ c' ∈ cands, skillIdOf c = skillIdOf c' → c = c')
    (g1 g2 : List Candidate)
    (hg1 : ∀ c ∈ g1, c ∈ cands) (hg2 : ∀ c ∈ g2, c ∈ cands)
    (hne : g1 ≠ []) (hdisj : ∀ c ∈ g1, c ∉ g2) :
    idsOfGroup g1 ≠ idsOfGroup g2 := by
  intro heq
  obtain ⟨c, hc⟩ := List.exists_mem_of_ne_nil g1 hne
  have h1 : skillIdOf c ∈ idsOfGroup g1 :=
    List.mem_toFinset.mpr (List.mem_map_of_mem skillIdOf hc)
  rw [heq] at h1
  obtain ⟨c', hc', he⟩ := List.mem_map.mp (List.mem_toFinset.mp h1)
  have hcc : c' = c := hinj c' (hg2 c' hc') c (hg1 c hc) he
  rw [hcc] at hc'
  exact hdisj c hc hc'

theorem nameConflictKeys_nodup (cands : List Candidate) :
    (nameConflictKeys cands).Nodup :=
  (List.nodup_dedup _).filter _

theorem nameDets_nodup {cands : List Candidate}
    (hinj : ∀ c ∈ cands, ∀ c' ∈ cands, skillIdOf c = skillIdOf c' → c = c') :
    (nameDets cands).Nodup := by
  unfold nameDets
  refine List.Nodup.map_on ?_ (nameConflictKeys_nodup cands)
  intro k1 hk1 k2 hk2 heq
  by_contra hne
  have hids : idsOfGroup (groupOf cands k1) = idsOfGroup (groupOf cands k2) := by
    have := congrArg Prod.snd heq
    simpa using this
  refine idsOfGroup_ne hinj (groupOf cands k1) (groupOf cands k2)
    (groupOf_sub cands k1) (groupOf_sub cands k2)
    (keysOf_group_ne_nil cands k1 (List.mem_of_mem_filter hk1)) ?_ hids
  intro c hc1 hc2
  exact hne ((groupOf_key cands k1 c hc1).symm.trans (groupOf_key cands k2 c hc2))

theorem better_cases (prio : Nat → Nat) (a b : Candidate) :
    better prio a b = a ∨ better prio a b = b := by
  unfold better
  split
  · exact Or.inr rfl
  · split
    · exact Or.inr rfl
    · exact Or.inl rfl

theorem winner_mem (prio : Nat → Nat) :
    ∀ (rest : List Candidate) (c : Candidate), winner prio c rest ∈ c :: rest := by
  intro rest
  induction rest with
  | nil =>
    intro c
    exact List.mem_cons_self c []
  | cons d ds ih =>
    intro c
    have h1 : winner prio c (d :: ds) = winner prio (better prio c d) ds := rfl
    rw [h1]
    rcases List.mem_cons.mp (ih (better prio c d)) with he | hm
    · rw [he]
      rcases better_cases prio c d with h | h
      · rw [h]
        exact List.mem_cons_self c (d :: ds)
      · rw [h]
        exact List.mem_cons_of_mem c (List.mem_cons_self d ds)
    · exact List.mem_cons_of_mem c (List.mem_cons_of_mem d hm)

theorem reps_sub (prio : Nat → Nat) (cands : List Candidate) :
    ∀ c ∈ reps prio cands, c ∈ cands := by
  intro c hc
  unfold reps at hc
  obtain ⟨k, hk, hck⟩ := List.mem_flatMap.mp hc
  unfold repOf at hck
  cases hget : groupOf cands k with
  | nil =>
    rw [hget] at hck
    cases hck
  | cons c0 rest =>
    rw [hget] at hck
    have hcw : c = winner prio c0 rest := by
      rcases List.mem_cons.mp hck with h | h
      · exact h
      · cases h
    rw [hcw]
    have hw := winner_mem prio rest c0
    rw [← hget] at hw
    exact groupOf_sub cands k _ hw

theorem simGroupOf_sub (simKey : String → Nat) (rs : List Candidate) (b : Nat) :
    ∀ c ∈ simGroupOf simKey rs b, c ∈ rs :=
  fun _ hc => (List.mem_filter.mp hc).1

theorem simGroupOf_bucket (simKey : String → Nat) (rs : List Candidate) (b : Nat) :
    ∀ c ∈ simGroupOf simKey rs b, bucketOf simKey c = b :=
  fun _ hc => of_decide_eq_true (List.mem_filter.mp hc).2

theorem simConflictBuckets_nodup (simKey : String → Nat) (rs : List Candidate) :
    (simConflictBuckets simKey rs).Nodup :=
  (List.nodup_dedup _).filter _

theorem simConflictBuckets_ne_nil (simKey : String → Nat) (rs : List Candidate)
    (b : Nat) (hb : b ∈ simConflictBuckets simKey rs) :
    simGroupOf simKey rs b ≠ [] := by
  have h2 : 2 ≤ (simGroupOf simKey rs b).length :=
    of_decide_eq_true (List.mem_filter.mp hb).2
  intro hnil
  rw [hnil] at h2
  cases h2

theorem simDets_nodup {cands : List Candidate} (simKey : String → Nat)
    (prio : Nat → Nat)
    (hinj : ∀ c ∈ cands, ∀ c' ∈ cands, skillIdOf c = skillIdOf c' → c = c') :
    (simDets simKey prio cands).Nodup := by
  unfold simDets
  refine List.Nodup.map_on ?_ (simConflictBuckets_nodup simKey (reps prio cands))
  intro b1 hb1 b2 hb2 heq
  by_contra hne
  have hids : idsOfGroup (simGroupOf simKey (reps prio cands) b1) =
      idsOfGroup (simGroupOf simKey (reps prio cands) b2) := by
    have := congrArg Prod.snd heq
    simpa using this
  refine idsOfGroup_ne hinj (simGroupOf simKey (reps prio cands) b1)
    (simGroupOf simKey (reps prio cands) b2)
    (fun c hc => reps_sub prio cands c (simGroupOf_sub simKey (reps prio cands) b1 c hc))
    (fun c hc => reps_sub prio cands c (simGroupOf_sub simKey (reps prio cands) b2 c hc))
    (simConflictBuckets_ne_nil simKey (reps prio cands) b1 hb1) ?_ hids
  intro c hc1 hc2
  exact hne
    ((simGroupOf_bucket simKey (reps prio cands) b1 c hc1).symm.trans
      (simGroupOf_bucket simKey (reps prio cands) b2 c hc2))

theorem nameDets_fst (cands : List Candidate) (d : DetC) (hd : d ∈ nameDets cands) :
    d.1 = ConflictType.NameConflict := by
  obtain ⟨k, _, hk⟩ := List.mem_map.mp hd
  rw [← hk]

theorem simDets_fst (simKey : String → Nat) (prio : Nat → Nat)
    (cands : List Candidate) (d : DetC) (hd : d ∈ simDets simKey prio cands) :
    d.1 = ConflictType.SimilarConflict := by
  obtain ⟨b, _, hb⟩ := List.mem_map.mp hd
  rw [← hb]

theorem detect_nodup (simKey : String → Nat) (prio : Nat → Nat)
    {cands : List Candidate} (hids : (cands.map skillIdOf).Nodup) :
    (detect simKey prio cands).Nodup := by
  have hinj : ∀ c ∈ cands, ∀ c' ∈ cands, skillIdOf c = skillIdOf c' → c = c' :=
    fun c hc c' hc' he => List.inj_on_of_nodup_map hids hc hc' he
  unfold detect
  refine List.Nodup.append (nameDets_nodup hinj) (simDets_nodup simKey prio hinj) ?_
  intro d hd1 hd2
  have h1 := nameDets_fst cands d hd1
  have h2 := simDets_fst simKey prio cands d hd2
  rw [h1] at h2
  cases h2

theorem refreshConflict_cases (dets : List DetC) (c : Conflict) :
    refreshConflict dets c = c ∨
      (refreshConflict dets c).status = ConflictStatus.Resolved := by
  unfold refreshConflict
  split
  · exact Or.inr rfl
  · exact Or.inl rfl

theorem refresh_pred_of_not_mem (dets : List DetC) (t : ConflictType)
    (s : Finset SkillId) (hnd : (t, s) ∉ dets) (c : Conflict) :
    (decide ((refreshConflict dets c).status = ConflictStatus.Pending) &&
      matchesDet (t, s) (refreshConflict dets c)) = false := by
  by_contra h
  rw [Bool.not_eq_false, Bool.and_eq_true] at h
  have hp : (refreshConflict dets c).status = ConflictStatus.Pending :=
    of_decide_eq_true h.1
  obtain ⟨heq, d, hd, hm⟩ := refreshConflict_pending dets c hp
  rw [heq] at h
  have hidm := of_decide_eq_true h.2
  have hdm := of_decide_eq_true hm
  obtain ⟨d1, d2⟩ := d
  have hdts : (d1, d2) = (t, s) := by
    have e1 : d1 = t := hdm.1.trans hidm.1.symm
    have e2 : d2 = s := hdm.2.trans hidm.2.symm
    rw [e1, e2]
  rw [hdts] at hd
  exact hnd hd

theorem refresh_pred_of_mem (dets : List DetC) (t : ConflictType)
    (s : Finset SkillId) (hd : (t, s) ∈ dets) (c : Conflict) :
    (decide ((refreshConflict dets c).status = ConflictStatus.Pending) &&
      matchesDet (t, s) (refreshConflict dets c)) =
    (decide (c.status = ConflictStatus.Pending) && matchesDet (t, s) c) := by
  by_cases hc : (decide (c.status = ConflictStatus.Pending) && matchesDet (t, s) c) = true
  · rw [hc]
    rw [Bool.and_eq_true] at hc
    have hkeep : refreshConflict dets c = c :=
      refreshConflict_of_match dets c ⟨(t, s), hd, hc.2⟩
    rw [hkeep]
    rw [← Bool.and_eq_true] at hc
    exact hc
  · rw [Bool.not_eq_true] at hc
    rw [hc]
    rcases refreshConflict_cases dets c with he | hs
    · rw [he, hc]
    · rw [hs]
      simp

theorem pendingWith_nil_of_not_hasPending (st : Store) (t : ConflictType)
    (s : Finset SkillId) (hp : hasPendingD st (t, s) = false) :
    pendingWith st t s = [] := by
  unfold pendingWith
  rw [List.filter_eq_nil_iff]
  intro c hc hcp
  unfold hasPendingD at hp
  have h2 : st.conflicts.any (fun c =>
      decide (c.status = ConflictStatus.Pending) && matchesDet (t, s) c) = true :=
    List.any_eq_true.mpr ⟨c, hc, hcp⟩
  rw [hp] at h2
  cases h2

theorem mkConflicts_filter_length (t : ConflictType) (s : Finset SkillId) :
    ∀ (n : Nat) (l : List DetC),
      ((mkConflicts n l).filter
        (fun c => decide (c.status = ConflictStatus.Pending) && matchesDet (t, s) c)).length =
      (l.filter (fun d => decide (d = (t, s)))).length := by
  intro n l
  induction l generalizing n with
  | nil => rfl
  | cons d ds ih =>
    obtain ⟨d1, d2⟩ := d
    have hstep : mkConflicts n ((d1, d2) :: ds) =
        Conflict.mk n d1 d2 ConflictStatus.Pending :: mkConflicts (n + 1) ds := rfl
    rw [hstep, List.filter_cons, List.filter_cons]
    by_cases hd : (d1, d2) = (t, s)
    · have e1 : d1 = t := congrArg Prod.fst hd
      have e2 : d2 = s := congrArg Prod.snd hd
      subst e1
      subst e2
      have h1 : (decide ((Conflict.mk n d1 d2 ConflictStatus.Pending).status =
          ConflictStatus.Pending) &&
          matchesDet (d1, d2) (Conflict.mk n d1 d2 ConflictStatus.Pending)) = true := by
        simp [matchesDet]
      have h2 : decide ((d1, d2) = (d1, d2)) = true := by simp
      rw [if_pos h1, if_pos h2, List.length_cons, List.length_cons, ih]
    · have hne : ¬(t = d1 ∧ s = d2) := by
        rintro ⟨ha, hb⟩
        exact hd (by rw [← ha, ← hb])
      have h1 : (decide ((Conflict.mk n d1 d2 ConflictStatus.Pending).status =
          ConflictStatus.Pending) &&
          matchesDet (t, s) (Conflict.mk n d1 d2 ConflictStatus.Pending)) = false := by
        simp [matchesDet, hne]
      have h2 : decide ((d1, d2) = (t, s)) = false := decide_eq_false hd
      rw [if_neg (by rw [h1]; simp), if_neg (by rw [h2]; simp)]
      exact ih (n + 1)

theorem count_filter_nodup {α : Type} [DecidableEq α] (a : α) (q : α → Bool)
    (hq : q a = true) :
    ∀ (l : List α), l.Nodup → a ∈ l →
      ((l.filter q).filter (fun d => decide (d = a))).length = 1 := by
  intro l
  induction l with
  | nil =>
    intro _ h
    cases h
  | cons b bs ih =>
    intro hnd hmem
    have hnd2 := List.nodup_cons.mp hnd
    rcases List.mem_cons.mp hmem with rfl | hmem'
    · rw [List.filter_cons, if_pos hq, List.filter_cons, if_pos (by simp),
        List.length_cons]
      have hzero : ((bs.filter q).filter (fun d => decide (d = a))).length = 0 := by
        rw [List.length_eq_zero, List.filter_eq_nil_iff]
        intro d hdm hdq
        have hda : d = a := of_decide_eq_true hdq
        rw [hda] at hdm
        exact hnd2.1 (List.mem_of_mem_filter hdm)
      rw [hzero]
    · have hba : ¬(b = a) := fun h => hnd2.1 (h ▸ hmem')
      by_cases hqb : q b = true
      · rw [List.filter_cons, if_pos hqb, List.filter_cons, if_neg (by simp [hba])]
        exact ih hnd2.2 hmem'
      · rw [List.filter_cons, if_neg hqb]
        exact ih hnd2.2 hmem'

theorem newDets_count_of_hasPending (st : Store) (dets : List DetC)
    (t : ConflictType) (s : Finset SkillId) (hp : hasPendingD st (t, s) = true) :
    ((newDets st dets).filter (fun d => decide (d = (t, s)))).length = 0 := by
  rw [List.length_eq_zero, List.filter_eq_nil_iff]
  intro d hd hdts
  have hda : d = (t, s) := of_decide_eq_true hdts
  subst hda
  have h2 := (List.mem_filter.mp hd).2
  rw [hp] at h2
  cases h2

theorem newDets_count_of_not_hasPending (st : Store) (dets : List DetC)
    (t : ConflictType) (s : Finset SkillId)
    (hp : hasPendingD st (t, s) = false) (hd : (t, s) ∈ dets) (hnd : dets.Nodup) :
    ((newDets st dets).filter (fun d => decide (d = (t, s)))).length = 1 := by
  unfold newDets
  exact count_filter_nodup (t, s) (fun d => ! hasPendingD st d)
    (by simp [hp]) dets hnd hd

theorem length_filter_map_eq {α β : Type} (f : α → β) (p : β → Bool) (l : List α) :
    ((l.map f).filter p).length = (l.filter (fun a => p (f a))).length := by
  induction l with
  | nil => rfl
  | cons a as ih =>
    show ((f a :: as.map f).filter p).length = _
    rw [List.filter_cons, List.filter_cons]
    by_cases h : p (f a) = true
    · rw [if_pos h, if_pos h, List.length_cons, List.length_cons, ih]
    · rw [if_neg h, if_neg h, ih]

theorem pendingWith_runMerge_length (simKey : String → Nat) (prio : Nat → Nat)
    (st : Store) (cands : List Candidate) (t : ConflictType) (s : Finset SkillId)
    (hids : (cands.map skillIdOf).Nodup) (hu : uniqPending st) :
    (pendingWith (runMerge simKey prio st cands) t s).length =
      if (t, s) ∈ detect simKey prio cands then 1 else 0 := by
  have hsplit : (pendingWith (runMerge simKey prio st cands) t s).length =
      (st.conflicts.filter (fun c =>
        decide ((refreshConflict (detect simKey prio cands) c).status =
          ConflictStatus.Pending) &&
          matchesDet (t, s) (refreshConflict (detect simKey prio cands) c))).length +
      ((mkConflicts st.nextCid (newDets st (detect simKey prio cands))).filter
        (fun c => decide (c.status = ConflictStatus.Pending) && matchesDet (t, s) c)).length := by
    unfold pendingWith
    rw [runMerge_conflicts]
    unfold applyConflicts
    rw [List.filter_append, List.length_append]
    congr 1
    exact length_filter_map_eq (refreshConflict (detect simKey prio cands)) _ st.conflicts
  rw [hsplit, mkConflicts_filter_length]
  by_cases hdet : (t, s) ∈ detect simKey prio cands
  · rw [if_pos hdet]
    have hA : st.conflicts.filter (fun c =>
        decide ((refreshConflict (detect simKey prio cands) c).status =
          ConflictStatus.Pending) &&
          matchesDet (t, s) (refreshConflict (detect simKey prio cands) c)) =
        pendingWith st t s := by
      unfold pendingWith
      exact List.filter_congr
        (fun c _ => refresh_pred_of_mem (detect simKey prio cands) t s hdet c)
    rw [hA]
    by_cases hp : hasPendingD st (t, s) = true
    · rw [newDets_count_of_hasPending st (detect simKey prio cands) t s hp]
      have hge : 1 ≤ (pendingWith st t s).length := by
        unfold hasPendingD at hp
        obtain ⟨c, hc, hcp⟩ := List.any_eq_true.mp hp
        have hm : c ∈ pendingWith st t s := List.mem_filter.mpr ⟨hc, hcp⟩
        exact List.length_pos.mpr (List.ne_nil_of_mem hm)
      have hle := hu t s
      omega
    · rw [Bool.not_eq_true] at hp
      rw [pendingWith_nil_of_not_hasPending st t s hp]
      rw [newDets_count_of_not_hasPending st (detect simKey prio cands) t s hp hdet
        (detect_nodup simKey prio hids)]
      rfl
  · rw [if_neg hdet]
    have hA : st.conflicts.filter (fun c =>
        decide ((refreshConflict (detect simKey prio cands) c).status =
          ConflictStatus.Pending) &&
          matchesDet (t, s) (refreshConflict (detect simKey prio cands) c)) = [] := by
      rw [List.filter_eq_nil_iff]
      intro c hc hcp
      rw [refresh_pred_of_not_mem (detect simKey prio cands) t s hdet c] at hcp
      cases hcp
    rw [hA]
    have hB : ((newDets st (detect simKey prio cands)).filter
        (fun d => decide (d = (t, s)))).length = 0 := by
      rw [List.length_eq_zero, List.filter_eq_nil_iff]
      intro d hd hdts
      have hda : d = (t, s) := of_decide_eq_true hdts
      subst hda
      exact hdet (List.mem_of_mem_filter hd)
    rw [hB]
    rfl

/-- C2: running the merge twice over unchanged candidates yields the
identical store (same Ready/Blocked partition, no new Conflicts), and, for
candidates with distinct skill identities over a store with at most one
Pending record per identity, every identity the run detects is afterwards
carried by exactly one Pending Conflict record, never two, and uniqueness
of Pending records per identity is preserved. -/
theorem merge_idempotent_no_duplicate_conflicts (simKey : String → Nat)
    (prio : Nat → Nat) (st : Store) (cands : List Candidate) :
    runMerge simKey prio (runMerge simKey prio st cands) cands =
      runMerge simKey prio st cands ∧
    ((cands.map skillIdOf).Nodup → uniqPending st →
      (∀ d ∈ detect simKey prio cands,
        (pendingWith (runMerge simKey prio st cands) d.1 d.2).length = 1) ∧
      uniqPending (runMerge simKey prio st cands)) := by
  refine ⟨merge_idempotent_store simKey prio st cands, fun hids hu => ⟨?_, ?_⟩⟩
  · intro d hd
    rw [pendingWith_runMerge_length simKey prio st cands d.1 d.2 hids hu]
    rw [if_pos]
    exact hd
  · intro t s
    rw [pendingWith_runMerge_length simKey prio st cands t s hids hu]
    split
    · exact Nat.le_refl 1
    · exact Nat.zero_le 1

/-- Witness for C2: the two-source deploy collision is carried by exactly
one Pending Conflict record after the run. -/
theorem merge_idempotent_no_duplicate_conflicts_witness :
    (exCands.map skillIdOf).Nodup ∧
    (pendingWith (runMerge exSim exPrio exStore0 exCands)
      ConflictType.NameConflict (idsOfGroup exCands)).length = 1 :=
  ⟨by decide,
    ((merge_idempotent_no_duplicate_conflicts exSim exPrio exStore0 exCands).2
      (by decide) (fun t s => by simp [pendingWith, exStore0])).1
      (ConflictType.NameConflict, idsOfGroup exCands) (by decide)⟩

/-- C8: the counts the dashboard displays are not the counts reported by
status(): at a status response with ready_count 5, blocked_count 2 and one
conflict in the list, the dashboard stats evaluate to (0, 1). -/
theorem dashboard_stats_ignore_status_counts :
    dashboardStats (StatusResponse.mk "IDLE" 5 2 ["c1"]) = (0, 1) ∧
    ((0 : Nat), (1 : Nat)) ≠
      ((StatusResponse.mk "IDLE" 5 2 ["c1"]).ready_count,
        (StatusResponse.mk "IDLE" 5 2 ["c1"]).blocked_count) := by
  exact ⟨rfl, by decide⟩

/-- C9: handleSync invokes the imported syncStatus binding; the api module
exports getSyncStatus and triggerSync but nothing named syncStatus, so a
click of the header sync button never issues the POST /sync request. -/
theorem handleSync_never_triggers_run :
    handleSyncBinding = "syncStatus" ∧
    "getSyncStatus" ∈ apiExports ∧
    "triggerSync" ∈ apiExports ∧
    handleSyncBinding ∉ apiExports ∧
    Request.mk "POST" "/sync" ∉ handleSyncRequests := by
  exact ⟨rfl, by decide, by decide, by decide, by decide⟩

/-- C10 fails as stated: for the same choose_one resolution of the same
conflict with the same chosen skill, the AI-recommendation path and the
manual path build different request bodies. -/
theorem resolve_bodies_differ :
    autoResolveBody "choose_one" "skill-a" ≠ submitResolveBody "choose_one" "skill-a" := by
  decide

/-- C10 amended: the two paths send the same action value and the same
chosen skill identifier value, but under different field names:
chosen_skill_id on the AI-recommendation path, chosen on the manual one. -/
theorem resolve_bodies_same_values_different_field (action chosen : String) :
    fieldValue (autoResolveBody action chosen) "action" = some action ∧
    fieldValue (submitResolveBody action chosen) "action" = some action ∧
    fieldValue (autoResolveBody action chosen) "chosen_skill_id" = some chosen ∧
    fieldValue (autoResolveBody action chosen) "chosen" = none ∧
    fieldValue (submitResolveBody action chosen) "chosen" = some chosen ∧
    fieldValue (submitResolveBody action chosen) "chosen_skill_id" = none := by
  refine ⟨?_, ?_, ?_, ?_, ?_, ?_⟩ <;>
    simp [fieldValue, autoResolveBody, submitResolveBody, List.find?]

end SkillsAgg
